import Mathlib

/-!
Verification of `helpers/convert_to_classification.py`: a one-shot batch
converter from a YOLO detection dataset (images plus `labels/*.txt`) into an
ImageNet-style classification tree with named class folders and a per-class
train/val split.

The script's pure logic — label parsing, image lookup, per-file selection,
class-name resolution, the seeded per-class shuffle and split, collision-free
destination naming, and the reported counters — is embedded as executable
Lean definitions.  Filesystem interaction is made explicit: directory walks
are passed in as the walk-ordered listings the Python code enumerates, and
`os.path.exists` checks against the output tree are modelled by membership in
an explicit list of already-present paths, threaded through the run.  The
validation fraction (a Python float) is idealised as a rational number, and
Python's process-wide Mersenne-Twister generator is modelled by an explicit
seeded generator threaded through the run in the same consumption order.
-/

/-- Pieces of a character list, split at every whitespace character.
Consecutive separators produce empty pieces, exactly like splitting a string
at each individual whitespace character. -/
def splitWs : List Char → List (List Char)
  | [] => [[]]
  | c :: cs =>
    if c.isWhitespace then [] :: splitWs cs
    else
      match splitWs cs with
      | [] => [[c]]
      | p :: ps => (c :: p) :: ps

/-- Whitespace-delimited tokens of a character list: the non-empty pieces.
This models Python `str.split()` with no arguments. -/
def tokensWs (s : List Char) : List (List Char) :=
  (splitWs s).filter (fun p => decide (p ≠ []))

/-- Leading-whitespace removal followed by trailing-whitespace removal,
modelling Python `str.strip()` on a character list. -/
def rstripWs : List Char → List Char
  | [] => []
  | c :: cs =>
    match rstripWs cs with
    | [] => if c.isWhitespace then [] else [c]
    | r => c :: r

/-- Strip whitespace from both ends of a character list. -/
def stripWs (s : List Char) : List Char :=
  rstripWs (s.dropWhile (fun c => c.isWhitespace))

theorem splitWs_ne_nil (s : List Char) : splitWs s ≠ [] := by
  cases s with
  | nil => simp [splitWs]
  | cons c cs =>
    by_cases hc : c.isWhitespace
    · simp [splitWs, hc]
    · simp only [splitWs, hc]
      cases h : splitWs cs <;> simp

theorem splitWs_append_ws {c : Char} (hc : c.isWhitespace = true) (s : List Char) :
    splitWs (s ++ [c]) = splitWs s ++ [[]] := by
  induction s with
  | nil => simp [splitWs, hc]
  | cons d ds ih =>
    by_cases hd : d.isWhitespace
    · simp [splitWs, hd, ih]
    · rcases hds : splitWs ds with _ | ⟨p, ps⟩
      · exact absurd hds (splitWs_ne_nil ds)
      · simp [splitWs, hd, ih, hds]

theorem tokensWs_append_ws {c : Char} (hc : c.isWhitespace = true) (s : List Char) :
    tokensWs (s ++ [c]) = tokensWs s := by
  simp [tokensWs, splitWs_append_ws hc, List.filter_append]

theorem tokensWs_append_allWs {w : List Char} (hw : ∀ c ∈ w, c.isWhitespace = true) :
    ∀ s : List Char, tokensWs (s ++ w) = tokensWs s := by
  induction w with
  | nil => intro s; simp
  | cons c cs ih =>
    intro s
    have hc : c.isWhitespace = true := hw c (by simp)
    have : s ++ c :: cs = (s ++ [c]) ++ cs := by simp
    rw [this, ih (fun d hd => hw d (by simp [hd])), tokensWs_append_ws hc]

theorem tokensWs_cons_ws {c : Char} (hc : c.isWhitespace = true) (s : List Char) :
    tokensWs (c :: s) = tokensWs s := by
  simp [tokensWs, splitWs, hc]

theorem tokensWs_dropWhile (s : List Char) :
    tokensWs (s.dropWhile (fun c => c.isWhitespace)) = tokensWs s := by
  induction s with
  | nil => rfl
  | cons c cs ih =>
    by_cases hc : c.isWhitespace
    · rw [List.dropWhile_cons_of_pos (by simp [hc]), ih, tokensWs_cons_ws hc]
    · rw [List.dropWhile_cons_of_neg (by simp [hc])]

theorem rstripWs_eq_nil {s : List Char} (h : rstripWs s = []) :
    ∀ c ∈ s, c.isWhitespace = true := by
  induction s with
  | nil => simp
  | cons c cs ih =>
    intro d hd
    simp only [rstripWs] at h
    cases hcs : rstripWs cs with
    | nil =>
      rw [hcs] at h
      by_cases hc : c.isWhitespace
      · rcases List.mem_cons.1 hd with rfl | hmem
        · exact hc
        · exact ih hcs d hmem
      · simp [hc] at h
    | cons r rs => rw [hcs] at h; simp at h

theorem rstripWs_decomp (s : List Char) :
    ∃ w, s = rstripWs s ++ w ∧ ∀ c ∈ w, c.isWhitespace = true := by
  induction s with
  | nil => exact ⟨[], by simp [rstripWs]⟩
  | cons c cs ih =>
    obtain ⟨w, hw, hws⟩ := ih
    simp only [rstripWs]
    cases hcs : rstripWs cs with
    | nil =>
      by_cases hc : c.isWhitespace
      · refine ⟨c :: cs, by simp [hc], ?_⟩
        intro d hd
        rcases List.mem_cons.1 hd with rfl | hmem
        · exact hc
        · exact rstripWs_eq_nil hcs d hmem
      · refine ⟨w, ?_, hws⟩
        rw [hcs] at hw
        simp only [List.nil_append] at hw
        simp [hc, ← hw]
    | cons r rs =>
      refine ⟨w, ?_, hws⟩
      rw [hcs] at hw
      simpa using hw

theorem tokensWs_rstrip (s : List Char) : tokensWs (rstripWs s) = tokensWs s := by
  obtain ⟨w, hw, hws⟩ := rstripWs_decomp s
  conv_rhs => rw [hw]
  rw [tokensWs_append_allWs hws]

theorem tokensWs_strip (s : List Char) : tokensWs (stripWs s) = tokensWs s := by
  rw [stripWs, tokensWs_rstrip, tokensWs_dropWhile]

theorem tokensWs_eq_nil_iff (s : List Char) :
    tokensWs s = [] ↔ ∀ c ∈ s, c.isWhitespace = true := by
  induction s with
  | nil => simp [tokensWs, splitWs]
  | cons c cs ih =>
    by_cases hc : c.isWhitespace
    · rw [tokensWs_cons_ws hc, ih]
      constructor
      · intro h d hd
        rcases List.mem_cons.1 hd with rfl | hmem
        · exact hc
        · exact h d hmem
      · intro h d hd
        exact h d (by simp [hd])
    · constructor
      · intro h
        exfalso
        simp only [tokensWs, splitWs, hc] at h
        rcases hcs : splitWs cs with _ | ⟨p, ps⟩
        · exact absurd hcs (splitWs_ne_nil cs)
        · rw [hcs] at h
          simp at h
      · intro h
        exact absurd (h c (by simp)) (by simp [hc])

theorem stripWs_eq_nil_iff (s : List Char) :
    stripWs s = [] ↔ tokensWs s = [] := by
  constructor
  · intro h
    have := tokensWs_strip s
    rw [h] at this
    simpa [tokensWs, splitWs] using this.symm
  · intro h
    have hall := (tokensWs_eq_nil_iff s).1 h
    have hdrop : s.dropWhile (fun c => c.isWhitespace) = [] := by
      rw [List.dropWhile_eq_nil_iff]
      intro x hx
      simp [hall x hx]
    simp [stripWs, hdrop, rstripWs]

theorem tokensWs_no_ws (s : List Char) :
    ∀ p ∈ tokensWs s, ∀ c ∈ p, c.isWhitespace = false := by
  have key : ∀ t : List Char, ∀ p ∈ splitWs t, ∀ c ∈ p, c.isWhitespace = false := by
    intro t
    induction t with
    | nil => simp [splitWs]
    | cons c cs ih =>
      intro p hp d hd
      by_cases hc : c.isWhitespace
      · simp only [splitWs, hc, if_pos] at hp
        rcases List.mem_cons.1 hp with rfl | hmem
        · simp at hd
        · exact ih p hmem d hd
      · simp only [splitWs, hc] at hp
        rcases hcs : splitWs cs with _ | ⟨q, qs⟩
        · exact absurd hcs (splitWs_ne_nil cs)
        · rw [hcs] at hp
          cases hp with
          | head =>
            rcases List.mem_cons.1 hd with heq | hdq
            · rw [heq]; simp [hc]
            · exact ih q (by rw [hcs]; exact List.mem_cons_self _ _) d hdq
          | tail _ hmem =>
            exact ih p (by rw [hcs]; exact List.mem_cons_of_mem _ hmem) d hd
  intro p hp
  exact key s p (List.mem_filter.1 hp).1

/-- Python `str.strip()` on a Lean string (ASCII whitespace). -/
def pyStrip (s : String) : String :=
  ⟨stripWs s.data⟩

/-- Python `str.split()` with no arguments on a Lean string: the list of
whitespace-delimited tokens. -/
def pySplit (s : String) : List String :=
  (tokensWs s.data).map (fun l => ⟨l⟩)

/-- Model of `parse_label_file` (lines 42-51 of the script): the file is
given as its list of lines; each line is stripped, blank lines are skipped,
and the first whitespace-delimited token of each remaining line is collected
in order.  The fold mirrors the Python loop appending to `class_ids`. -/
def parse_label_file (lines : List String) : List String :=
  lines.foldl
    (fun acc line =>
      let t := pyStrip line
      if t = "" then acc
      else acc ++ [(pySplit t).headD ""])
    []

/-- Declarative form used by the specification: the ordered list of first
whitespace-delimited tokens of the non-blank lines (a line with no token is
blank, and contributes nothing). -/
def labelIdsSpec (lines : List String) : List String :=
  lines.filterMap (fun line => ((pySplit line).head?))

theorem string_mk_eq_nil_iff (l : List Char) : (⟨l⟩ : String) = "" ↔ l = [] := by
  constructor
  · intro h
    exact congrArg String.data h
  · intro h
    rw [h]

theorem pySplit_strip (s : String) : pySplit (pyStrip s) = pySplit s := by
  simp [pySplit, pyStrip, tokensWs_strip]

theorem pyStrip_eq_empty_iff (s : String) :
    pyStrip s = "" ↔ pySplit s = [] := by
  rw [pyStrip, string_mk_eq_nil_iff, stripWs_eq_nil_iff]
  constructor
  · intro h
    simp [pySplit, h]
  · intro h
    simpa [pySplit] using h

theorem parse_label_file_eq_spec (lines : List String) :
    parse_label_file lines = labelIdsSpec lines := by
  have key : ∀ (ls : List String) (acc : List String),
      ls.foldl
        (fun acc line =>
          let t := pyStrip line
          if t = "" then acc
          else acc ++ [(pySplit t).headD ""])
        acc = acc ++ labelIdsSpec ls := by
    intro ls
    induction ls with
    | nil => intro acc; simp [labelIdsSpec]
    | cons l ls ih =>
      intro acc
      by_cases hb : pyStrip l = ""
      · have hsplit : pySplit l = [] := (pyStrip_eq_empty_iff l).1 hb
        simp only [List.foldl_cons, hb, if_pos]
        rw [ih]
        simp [labelIdsSpec, List.filterMap_cons, hsplit]
      · have hsplit : pySplit l ≠ [] := by
          intro h
          exact hb ((pyStrip_eq_empty_iff l).2 h)
        rcases hs : pySplit l with _ | ⟨tok, toks⟩
        · exact absurd hs hsplit
        · simp only [List.foldl_cons, hb, if_neg]
          rw [ih]
          have hhead : (pySplit (pyStrip l)).head?.getD "" = tok := by
            rw [pySplit_strip, hs]
            rfl
          simp [labelIdsSpec, List.filterMap_cons, hs, hhead]
  rw [parse_label_file, key, labelIdsSpec]
  rfl

/-- Split a character list at its last dot, returning the part before and the
part from the dot on; `none` when no dot occurs. -/
def splitAtLastDot : List Char → Option (List Char × List Char)
  | [] => none
  | c :: cs =>
    match splitAtLastDot cs with
    | some p => some (c :: p.1, p.2)
    | none => if c = '.' then some ([], c :: cs) else none

/-- Model of `os.path.splitext` on a single path component: split at the last
dot, except that a run of leading dots never starts an extension (so `.txt`
has base `.txt` and empty extension, exactly like Python). -/
def splitextCh (s : List Char) : List Char × List Char :=
  let lead := s.takeWhile (fun c => decide (c = '.'))
  let rest := s.dropWhile (fun c => decide (c = '.'))
  match splitAtLastDot rest with
  | some p => (lead ++ p.1, p.2)
  | none => (s, [])

/-- String-level `os.path.splitext` returning (root, extension). -/
def splitext (s : String) : String × String :=
  ((⟨(splitextCh s.data).1⟩ : String), (⟨(splitextCh s.data).2⟩ : String))

/-- ASCII lower-casing of a string, modelling `str.lower()` as used by the
script (it is only ever applied to file-name extensions). -/
def lowerStr (s : String) : String :=
  ⟨s.data.map Char.toLower⟩

theorem splitAtLastDot_of_no_dot {s : List Char} (h : ∀ c ∈ s, c ≠ '.') :
    splitAtLastDot s = none := by
  induction s with
  | nil => rfl
  | cons c cs ih =>
    have hcs : splitAtLastDot cs = none := ih (fun d hd => h d (by simp [hd]))
    have hc : ¬ c = '.' := h c (by simp)
    simp [splitAtLastDot, hcs, hc]

theorem splitAtLastDot_append_ext {r : List Char} (hr : ∀ c ∈ r, c ≠ '.') :
    ∀ xs : List Char, splitAtLastDot (xs ++ '.' :: r) = some (xs, '.' :: r) := by
  intro xs
  induction xs with
  | nil =>
    simp [splitAtLastDot, splitAtLastDot_of_no_dot hr]
  | cons c cs ih =>
    simp [splitAtLastDot, ih]

theorem splitextCh_append_ext {base r : List Char}
    (hbase : ∃ c ∈ base, c ≠ '.') (hr : ∀ c ∈ r, c ≠ '.') :
    splitextCh (base ++ '.' :: r) = (base, '.' :: r) := by
  obtain ⟨c0, hc0mem, hc0⟩ := hbase
  have hnotall : ¬ ∀ c ∈ base, c = '.' := fun h => hc0 (h c0 hc0mem)
  have htake : (base ++ '.' :: r).takeWhile (fun c => decide (c = '.')) =
      base.takeWhile (fun c => decide (c = '.')) := by
    rw [List.takeWhile_append]
    split
    · next h =>
      exfalso
      apply hnotall
      intro c hc
      have hlen := h
      have : base.takeWhile (fun c => decide (c = '.')) = base :=
        (List.takeWhile_sublist _).eq_of_length hlen
      have := List.mem_takeWhile_imp (l := base) (p := fun c => decide (c = '.'))
        (x := c) (by rw [this]; exact hc)
      simpa using this
    · rfl
  have hdrop : (base ++ '.' :: r).dropWhile (fun c => decide (c = '.')) =
      base.dropWhile (fun c => decide (c = '.')) ++ '.' :: r := by
    rw [List.dropWhile_append]
    split
    · next h =>
      exfalso
      apply hnotall
      intro c hc
      rw [List.isEmpty_iff] at h
      have := List.dropWhile_eq_nil_iff.1 h c hc
      simpa using this
    · rfl
  rw [splitextCh]
  simp only [htake, hdrop]
  rw [splitAtLastDot_append_ext hr]
  simp [List.takeWhile_append_dropWhile]

/-- The accepted image extensions (`IMG_EXTS` in the script).  Python stores
them in a set, and the direct-lookup pass iterates that set in an iteration
order that is hash-randomized per process, so the probe order is itself an
input of a run.  This fixed list is used by the properties that are
insensitive to the probe order (the locator's found/not-found
characterisation quantifies over all entries); the order-dependent
behaviour is modelled explicitly by the `extOrder` parameter of the
`...Ord` variants further below, which this list specialises. -/
def IMG_EXTS : List String :=
  [".jpg", ".jpeg", ".png", ".bmp", ".tif", ".tiff"]

/-- Path join with a forward slash, modelling `os.path.join` for the simple
`dir + name` joins the script performs. -/
def joinPath (a b : String) : String :=
  a ++ "/" ++ b

/-- Does a directory-entry file name match the searched base name: the name
with its extension removed equals `base` and the extension, lower-cased, is
an accepted image extension?  This is the condition of the recursive search
pass in `find_image_for_label` (lines 35-39 of the script). -/
def imgMatch (base : String) (fname : String) : Bool :=
  decide ((splitext fname).1 = base) &&
    decide (lowerStr (splitext fname).2 ∈ IMG_EXTS)

/-- Model of `find_image_for_label` (lines 27-40).  The images directory is
given as `entries`: the walk-ordered list of `(containing directory, file
name)` pairs for every file anywhere under the images root.  The direct pass
checks, for each accepted extension, whether the root directory directly
contains `base + ext`; the fallback pass scans all entries in walk order for
the first name whose extension-stripped form matches.  Returns `none` when
both passes fail (Python returns `None`). -/
def find_image_for_label (labelName : String) (imagesDir : String)
    (entries : List (String × String)) : Option String :=
  let base := (splitext labelName).1
  match IMG_EXTS.find? (fun ext => decide ((imagesDir, base ++ ext) ∈ entries)) with
  | some ext => some (joinPath imagesDir (base ++ ext))
  | none =>
    match entries.find? (fun e => imgMatch base e.2) with
    | some e => some (joinPath e.1 e.2)
    | none => none

theorem imgexts_shape :
    ∀ e ∈ IMG_EXTS, e.data.head? = some '.' ∧ (∀ c ∈ e.data.tail, c ≠ '.') ∧
      lowerStr e = e := by
  decide

theorem imgMatch_base_append {base : String} (ext : String)
    (hbase : ∃ c ∈ base.data, c ≠ '.') (hext : ext ∈ IMG_EXTS) :
    imgMatch base (base ++ ext) = true := by
  obtain ⟨hhead, htail, hlower⟩ := imgexts_shape ext hext
  rcases hdata : ext.data with _ | ⟨e0, erest⟩
  · rw [hdata] at hhead
    simp at hhead
  · rw [hdata] at hhead htail
    simp only [List.head?_cons, Option.some.injEq] at hhead
    have hsplit : splitextCh (base.data ++ '.' :: erest) = (base.data, '.' :: erest) := by
      exact splitextCh_append_ext hbase (by simpa using htail)
    have hdata2 : (base ++ ext).data = base.data ++ '.' :: erest := by
      rw [String.data_append, hdata, hhead]
    have h1 : (splitext (base ++ ext)).1 = base := by
      rw [splitext, hdata2, hsplit]
    have h2 : (splitext (base ++ ext)).2 = ext := by
      rw [splitext, hdata2, hsplit]
      show (⟨'.' :: erest⟩ : String) = ext
      rw [← hhead, ← hdata]
    rw [imgMatch, h1, h2, hlower]
    simp [hext]

theorem find_image_eq_none_iff (labelName imagesDir : String)
    (entries : List (String × String))
    (hbase : ∃ c ∈ ((splitext labelName).1).data, c ≠ '.') :
    find_image_for_label labelName imagesDir entries = none ↔
      ∀ e ∈ entries, imgMatch ((splitext labelName).1) e.2 = false := by
  rw [find_image_for_label]
  constructor
  · intro h e he
    rcases h1 : IMG_EXTS.find?
        (fun ext => decide ((imagesDir, (splitext labelName).1 ++ ext) ∈ entries)) with _ | ext
    · rw [h1] at h
      rcases h2 : entries.find? (fun e => imgMatch ((splitext labelName).1) e.2) with _ | e2
      · have := List.find?_eq_none.1 h2 e he
        simpa using this
      · rw [h2] at h
        simp at h
    · rw [h1] at h
      simp at h
  · intro hall
    have h1 : IMG_EXTS.find?
        (fun ext => decide ((imagesDir, (splitext labelName).1 ++ ext) ∈ entries)) = none := by
      rw [List.find?_eq_none]
      intro ext hext hmem
      have hmem2 : (imagesDir, (splitext labelName).1 ++ ext) ∈ entries := by
        simpa using hmem
      have := hall _ hmem2
      simp only at this
      rw [imgMatch_base_append ext hbase hext] at this
      simp at this
    have h2 : entries.find? (fun e => imgMatch ((splitext labelName).1) e.2) = none := by
      rw [List.find?_eq_none]
      intro e he
      simp [hall e he]
    rw [h1, h2]

theorem find_image_some_spec (labelName imagesDir : String)
    (entries : List (String × String)) (p : String)
    (hbase : ∃ c ∈ ((splitext labelName).1).data, c ≠ '.')
    (h : find_image_for_label labelName imagesDir entries = some p) :
    ∃ e ∈ entries, imgMatch ((splitext labelName).1) e.2 = true ∧
      p = joinPath e.1 e.2 := by
  rw [find_image_for_label] at h
  rcases h1 : IMG_EXTS.find?
      (fun ext => decide ((imagesDir, (splitext labelName).1 ++ ext) ∈ entries)) with _ | ext
  · rw [h1] at h
    rcases h2 : entries.find? (fun e => imgMatch ((splitext labelName).1) e.2) with _ | e
    · rw [h2] at h
      simp at h
    · rw [h2] at h
      simp only [Option.some.injEq] at h
      refine ⟨e, List.mem_of_find?_eq_some h2, ?_, h.symm⟩
      have := List.find?_some h2
      simpa using this
  · rw [h1] at h
    simp only [Option.some.injEq] at h
    have hext : ext ∈ IMG_EXTS := List.mem_of_find?_eq_some h1
    have hmem : (imagesDir, (splitext labelName).1 ++ ext) ∈ entries := by
      have := List.find?_some h1
      simpa using this
    refine ⟨(imagesDir, (splitext labelName).1 ++ ext), hmem, ?_, h.symm⟩
    exact imgMatch_base_append ext hbase hext

/-- Replace every space by an underscore, modelling the sanitisation
`class_name.replace(' ', '_')` at line 238 of the script. -/
def replaceSpaces (s : String) : String :=
  ⟨s.data.map (fun c => if c = ' ' then '_' else c)⟩

/-- Lookup in the class mapping, modelling `class_map.get(str(chosen))`.
The chosen identifier is already a string in the script (a token of the
label file), so `str(chosen)` is the identity. -/
def lookupMap (m : List (String × String)) (k : String) : Option String :=
  (m.find? (fun p => decide (p.1 = k))).map (fun p => p.2)

/-- A label file discovered by the walk over the labels directory: its
containing directory, its file name, and its content as a list of lines. -/
structure LabelFile where
  dir : String
  name : String
  lines : List String
deriving DecidableEq

/-- The mutable per-run counters and the accumulated usable samples of the
selection phase (lines 206-209): `samples`, `skipped`, `multi`,
`missing_image`. -/
structure SelState where
  samples : List (String × String)
  skipped : Nat
  multi : Nat
  missing : Nat
deriving DecidableEq

/-- Keeping a record once an identifier has been chosen (lines 227-239):
look the image up; count it missing when none is found, otherwise resolve
the class name through the mapping (falling back to the identifier itself),
sanitise it, and append the `(image, class name)` sample. -/
def keepSample (classMap : List (String × String)) (imagesDir : String)
    (entries : List (String × String)) (labelName : String)
    (chosen : String) (st : SelState) : SelState :=
  match find_image_for_label labelName imagesDir entries with
  | none => { st with missing := st.missing + 1 }
  | some img =>
    let class_name := (lookupMap classMap chosen).getD chosen
    let class_name := replaceSpaces class_name
    { st with samples := st.samples ++ [(img, class_name)] }

/-- One iteration of the selection loop (lines 211-239) on a single label
file: parse it; an empty identifier list is skipped; more than one
identifier counts as multi-label and is dropped unless force-first is set,
in which case the first identifier is chosen; a single identifier is chosen
directly. -/
def processOne (forceFirst : Bool) (classMap : List (String × String))
    (imagesDir : String) (entries : List (String × String))
    (st : SelState) (lf : LabelFile) : SelState :=
  match parse_label_file lf.lines with
  | [] => { st with skipped := st.skipped + 1 }
  | c0 :: rest =>
    if rest.length + 1 > 1 then
      let st1 := { st with multi := st.multi + 1 }
      if forceFirst then keepSample classMap imagesDir entries lf.name c0 st1
      else st1
    else keepSample classMap imagesDir entries lf.name c0 st

/-- The selection phase: fold the loop over the discovered label files,
starting from zeroed counters. -/
def selectPhase (forceFirst : Bool) (classMap : List (String × String))
    (imagesDir : String) (entries : List (String × String))
    (files : List LabelFile) : SelState :=
  files.foldl (processOne forceFirst classMap imagesDir entries) ⟨[], 0, 0, 0⟩

theorem processOne_empty (forceFirst : Bool) (classMap : List (String × String))
    (imagesDir : String) (entries : List (String × String))
    (st : SelState) (lf : LabelFile) (h : parse_label_file lf.lines = []) :
    processOne forceFirst classMap imagesDir entries st lf =
      { st with skipped := st.skipped + 1 } := by
  rw [processOne, h]

theorem processOne_multi_noforce (classMap : List (String × String))
    (imagesDir : String) (entries : List (String × String))
    (st : SelState) (lf : LabelFile) (c0 : String) (rest : List String)
    (h : parse_label_file lf.lines = c0 :: rest) (hlen : rest ≠ []) :
    processOne false classMap imagesDir entries st lf =
      { st with multi := st.multi + 1 } := by
  rw [processOne, h]
  have : rest.length + 1 > 1 := by
    cases rest with
    | nil => exact absurd rfl hlen
    | cons a as => simp
  simp [this]

theorem processOne_multi_force (classMap : List (String × String))
    (imagesDir : String) (entries : List (String × String))
    (st : SelState) (lf : LabelFile) (c0 : String) (rest : List String)
    (h : parse_label_file lf.lines = c0 :: rest) (hlen : rest ≠ []) :
    processOne true classMap imagesDir entries st lf =
      keepSample classMap imagesDir entries lf.name c0
        { st with multi := st.multi + 1 } := by
  rw [processOne, h]
  have : rest.length + 1 > 1 := by
    cases rest with
    | nil => exact absurd rfl hlen
    | cons a as => simp
  simp [this]

theorem processOne_single (forceFirst : Bool) (classMap : List (String × String))
    (imagesDir : String) (entries : List (String × String))
    (st : SelState) (lf : LabelFile) (c0 : String)
    (h : parse_label_file lf.lines = [c0]) :
    processOne forceFirst classMap imagesDir entries st lf =
      keepSample classMap imagesDir entries lf.name c0 st := by
  rw [processOne, h]
  simp

theorem keepSample_found (classMap : List (String × String))
    (imagesDir : String) (entries : List (String × String))
    (labelName chosen img : String) (st : SelState)
    (h : find_image_for_label labelName imagesDir entries = some img) :
    keepSample classMap imagesDir entries labelName chosen st =
      { st with samples := st.samples ++
        [(img, replaceSpaces ((lookupMap classMap chosen).getD chosen))] } := by
  rw [keepSample, h]

theorem keepSample_missing (classMap : List (String × String))
    (imagesDir : String) (entries : List (String × String))
    (labelName chosen : String) (st : SelState)
    (h : find_image_for_label labelName imagesDir entries = none) :
    keepSample classMap imagesDir entries labelName chosen st =
      { st with missing := st.missing + 1 } := by
  rw [keepSample, h]

/-- Decimal digit as a character. -/
def digitChar (d : Nat) : Char :=
  Char.ofNat (48 + d)

/-- Decimal rendering of a natural number, modelling Python `str(i)` for the
non-negative suffix counter. -/
def decimalRepr (n : Nat) : String :=
  if n = 0 then "0" else ⟨((Nat.digits 10 n).reverse).map digitChar⟩

/-- Left inverse of `decimalRepr`, used only to prove injectivity. -/
def decodeDigits (s : String) : Nat :=
  Nat.ofDigits 10 ((s.data.map (fun c => c.toNat - 48)).reverse)

theorem undigit_digitChar {d : Nat} (h : d < 10) : (digitChar d).toNat - 48 = d := by
  interval_cases d <;> decide

theorem decodeDigits_decimalRepr (n : Nat) : decodeDigits (decimalRepr n) = n := by
  by_cases h : n = 0
  · rw [h]
    decide
  · rw [decimalRepr, if_neg h, decodeDigits]
    show Nat.ofDigits 10
      (((((Nat.digits 10 n).reverse).map digitChar).map (fun c => c.toNat - 48)).reverse) = n
    rw [List.map_map]
    have hmap : ((Nat.digits 10 n).reverse).map ((fun c => c.toNat - 48) ∘ digitChar) =
        ((Nat.digits 10 n).reverse).map id := by
      apply List.map_congr_left
      intro d hd
      have hd10 : d < 10 := Nat.digits_lt_base (by norm_num) (List.mem_reverse.1 hd)
      exact undigit_digitChar hd10
    rw [hmap, List.map_id, List.reverse_reverse, Nat.ofDigits_digits]

theorem decimalRepr_injective : Function.Injective decimalRepr := by
  intro a b h
  have := congrArg decodeDigits h
  rwa [decodeDigits_decimalRepr, decodeDigits_decimalRepr] at this

/-- The candidate destination path with numeric suffix `i`:
`dest_dir/name_i ext` as built at line 64 of the script. -/
def candName (destDir fname fext : String) (i : Nat) : String :=
  joinPath destDir (fname ++ "_" ++ decimalRepr i ++ fext)

theorem candName_injective (destDir fname fext : String) :
    Function.Injective (candName destDir fname fext) := by
  intro i j h
  apply decimalRepr_injective
  have hdata := congrArg String.data h
  simp only [candName, joinPath, String.data_append, List.append_assoc] at hdata
  have h1 := List.append_cancel_left hdata
  have h2 := List.append_cancel_left h1
  have h3 := List.append_cancel_left h2
  have h4 := List.append_cancel_left h3
  have h5 := List.append_cancel_right h4
  exact congrArg (fun l => (⟨l⟩ : String)) h5
theorem exists_free_suffix (existing : List String) (destDir fname fext : String) :
    ∃ i ∈ List.range' 1 (existing.length + 1),
      candName destDir fname fext i ∉ existing := by
  by_contra hcon
  push_neg at hcon
  have hsub : (List.range' 1 (existing.length + 1)).map (candName destDir fname fext) ⊆
      existing := by
    intro x hx
    obtain ⟨i, hi, rfl⟩ := List.mem_map.1 hx
    exact hcon i hi
  have hnodup : ((List.range' 1 (existing.length + 1)).map
      (candName destDir fname fext)).Nodup :=
    (List.nodup_range' 1 (existing.length + 1)).map (candName_injective destDir fname fext)
  have hcard1 : ((List.range' 1 (existing.length + 1)).map
      (candName destDir fname fext)).toFinset.card = existing.length + 1 := by
    rw [List.toFinset_card_of_nodup hnodup]
    simp [List.length_range']
  have hsubF : ((List.range' 1 (existing.length + 1)).map
      (candName destDir fname fext)).toFinset ⊆ existing.toFinset := by
    intro x hx
    rw [List.mem_toFinset] at hx ⊢
    exact hsub hx
  have := Finset.card_le_card hsubF
  rw [hcard1] at this
  have := le_trans this (List.toFinset_card_le existing)
  omega

/-- Search for the first free numeric suffix, modelling the `while` loop at
lines 62-65 of the script.  The loop always terminates because only finitely
many destination names exist; here the search range `1, ...,
existing.length + 1` is enough by a pigeonhole argument
(`exists_free_suffix`), so the fallback value `0` of `getD` is never
used. -/
def findFree (existing : List String) (destDir fname fext : String) : String :=
  candName destDir fname fext
    (((List.range' 1 (existing.length + 1)).find?
      (fun i => decide (candName destDir fname fext i ∉ existing))).getD 0)

theorem findFree_not_mem (existing : List String) (destDir fname fext : String) :
    findFree existing destDir fname fext ∉ existing := by
  obtain ⟨i, hi, hfree⟩ := exists_free_suffix existing destDir fname fext
  have hsome : ((List.range' 1 (existing.length + 1)).find?
      (fun i => decide (candName destDir fname fext i ∉ existing))).isSome := by
    rw [List.find?_isSome]
    exact ⟨i, hi, by simpa using hfree⟩
  rcases hfind : (List.range' 1 (existing.length + 1)).find?
      (fun i => decide (candName destDir fname fext i ∉ existing)) with _ | j
  · rw [hfind] at hsome
    simp at hsome
  · have := List.find?_some hfind
    rw [findFree, hfind]
    simpa using this

/-- The file-name part after the last slash, modelling `os.path.basename`. -/
def afterLastSlash : List Char → List Char
  | [] => []
  | c :: cs =>
    if cs.contains '/' then afterLastSlash cs
    else if c = '/' then cs else c :: cs

/-- String-level `os.path.basename`. -/
def basenameOf (p : String) : String :=
  ⟨afterLastSlash p.data⟩

/-- Model of `copy_image_to` (lines 56-70), restricted to the destination
path it chooses; the actual byte copy or move is outside the model.
`existing` is the set (as a list) of paths already present in the output
tree, against which `os.path.exists` is checked.  The natural destination
`output/split/class/basename` is used when free; otherwise numeric suffixes
`_1, _2, ...` are tried before the extension until a free name is found. -/
def copy_image_to (existing : List String) (output_dir split class_name
    image_path : String) : String :=
  let dest_dir := joinPath (joinPath output_dir split) class_name
  let filename := basenameOf image_path
  let dest_path := joinPath dest_dir filename
  if dest_path ∈ existing then
    findFree existing dest_dir (splitext filename).1 (splitext filename).2
  else dest_path

theorem copy_image_to_fresh (existing : List String)
    (output_dir split class_name image_path : String) :
    copy_image_to existing output_dir split class_name image_path ∉ existing := by
  rw [copy_image_to]
  split
  · exact findFree_not_mem _ _ _ _
  · next h => exact h

/-- One step of a linear congruential generator.  This stands in for
Python's Mersenne-Twister global generator: the model only relies on the
generator being a deterministic function of its state, seeded once from the
seed argument (line 190) and threaded through the shuffles in program
order. -/
def lcg (g : Nat) : Nat :=
  (1103515245 * g + 12345) % 2 ^ 31

/-- Draw `n` successive generator values, returning them with the final
generator state. -/
def lcgDraw : Nat → Nat → List Nat × Nat
  | g, 0 => ([], g)
  | g, n + 1 =>
    let g1 := lcg g
    let p := lcgDraw g1 n
    (g1 :: p.1, p.2)

/-- Model of `random.shuffle(imgs)` (line 251): attach one generator value
to every element as a sort key and sort by key.  Any deterministic
seed-driven permutation is a faithful model of the seeded shuffle for the
properties proved here (a permutation of the input, deterministic in the
generator state). -/
def shuffleModel (g : Nat) (l : List String) : List String × Nat :=
  let p := lcgDraw g l.length
  (((p.1.zip l).insertionSort (fun a b => a.1 ≤ b.1)).map Prod.snd, p.2)

theorem lcgDraw_length (g n : Nat) : (lcgDraw g n).1.length = n := by
  induction n generalizing g with
  | zero => rfl
  | succ n ih => simp [lcgDraw, ih]

theorem shuffleModel_perm (g : Nat) (l : List String) :
    (shuffleModel g l).1.Perm l := by
  rw [shuffleModel]
  have hperm := List.perm_insertionSort
    (fun a b : Nat × String => a.1 ≤ b.1) ((lcgDraw g l.length).1.zip l)
  have hmap := hperm.map Prod.snd
  have hzip : ((lcgDraw g l.length).1.zip l).map Prod.snd = l :=
    List.map_snd_zip _ _ (by rw [lcgDraw_length])
  rw [hzip] at hmap
  exact hmap

theorem shuffleModel_length (g : Nat) (l : List String) :
    (shuffleModel g l).1.length = l.length :=
  (shuffleModel_perm g l).length_eq

/-- The validation-set size for a class of `n` kept samples: the Python
`int(len(imgs) * args.val_split)` (line 252), with the float multiplication
idealised as exact rational arithmetic; `int()` truncation agrees with the
floor for the non-negative fractions of the documented range. -/
def valCount (f : ℚ) (n : Nat) : Nat :=
  (⌊(n : ℚ) * f⌋).toNat

/-- The per-class split (lines 251-254): shuffle the class bucket with the
current generator state, take the first `valCount` shuffled items as the
validation set and the remainder as the train set; also return the advanced
generator state. -/
def splitForClass (f : ℚ) (g : Nat) (imgs : List String) :
    (List String × List String) × Nat :=
  let p := shuffleModel g imgs
  let n_val := valCount f imgs.length
  ((p.1.take n_val, p.1.drop n_val), p.2)

theorem valCount_le {f : ℚ} (hf1 : f ≤ 1) (n : Nat) : valCount f n ≤ n := by
  rw [valCount]
  have hle : (n : ℚ) * f ≤ (n : ℚ) := by
    calc (n : ℚ) * f ≤ (n : ℚ) * 1 :=
      mul_le_mul_of_nonneg_left hf1 (by positivity)
    _ = (n : ℚ) := mul_one _
  have := Int.floor_le_floor hle
  rw [Int.floor_natCast] at this
  omega

/-- Insert one sample into the per-class buckets, preserving first-seen key
order and appending within a bucket, modelling
`defaultdict(list)` filled in sample order (lines 244-246). -/
def addToGroups (gs : List (String × List String)) (cname img : String) :
    List (String × List String) :=
  match gs with
  | [] => [(cname, [img])]
  | g :: rest =>
    if g.1 = cname then (g.1, g.2 ++ [img]) :: rest
    else g :: addToGroups rest cname img

/-- Group the kept samples by class name in first-seen order. -/
def groupByClass (samples : List (String × String)) :
    List (String × List String) :=
  samples.foldl (fun gs s => addToGroups gs s.2 s.1) []

/-- Total number of samples held in the buckets. -/
def groupsSize (gs : List (String × List String)) : Nat :=
  (gs.map (fun g => g.2.length)).sum

theorem addToGroups_size (gs : List (String × List String)) (cname img : String) :
    groupsSize (addToGroups gs cname img) = groupsSize gs + 1 := by
  induction gs with
  | nil => rfl
  | cons g rest ih =>
    by_cases h : g.1 = cname
    · simp [addToGroups, h, groupsSize]
      omega
    · simp only [addToGroups, h, if_neg]
      simp only [groupsSize, List.map_cons, List.sum_cons] at ih ⊢
      simp [ih]
      omega

theorem groupByClass_size (samples : List (String × String)) :
    groupsSize (groupByClass samples) = samples.length := by
  have key : ∀ (ss : List (String × String)) (gs : List (String × List String)),
      groupsSize (ss.foldl (fun gs s => addToGroups gs s.2 s.1) gs) =
        groupsSize gs + ss.length := by
    intro ss
    induction ss with
    | nil => intro gs; simp
    | cons s ss ih =>
      intro gs
      simp only [List.foldl_cons, List.length_cons]
      rw [ih, addToGroups_size]
      omega
  rw [groupByClass, key]
  simp [groupsSize]

/-- The writer state threaded through phase two (lines 249-261): the paths
already present in the output tree (`os.path.exists`), the destinations
written so far in order, the `total_copied` counter, and the generator
state. -/
structure WriteState where
  existing : List String
  writes : List String
  total : Nat
  rng : Nat

/-- Write one image (lines 256-258 and 259-261): choose a collision-free
destination, record it as now existing, and count it. -/
def writeOne (output_dir split class_name : String) (ws : WriteState)
    (img : String) : WriteState :=
  let d := copy_image_to ws.existing output_dir split class_name img
  { existing := d :: ws.existing, writes := ws.writes ++ [d],
    total := ws.total + 1, rng := ws.rng }

/-- Process one class bucket (lines 250-261): shuffle and split it, then
write the train images into `train/` and the val images into `val/`. -/
def writeClassGroup (output_dir : String) (f : ℚ) (ws : WriteState)
    (grp : String × List String) : WriteState :=
  let p := splitForClass f ws.rng grp.2
  let ws1 : WriteState := { ws with rng := p.2 }
  let ws2 := p.1.2.foldl (writeOne output_dir "train" grp.1) ws1
  p.1.1.foldl (writeOne output_dir "val" grp.1) ws2

/-- Phase two of the run: fold over the class buckets in order, starting
from the pre-existing output-tree contents, an empty write log, a zero
counter and the seeded generator. -/
def writeAll (output_dir : String) (f : ℚ) (seed : Nat)
    (existing0 : List String) (groups : List (String × List String)) :
    WriteState :=
  groups.foldl (writeClassGroup output_dir f) ⟨existing0, [], 0, seed⟩

/-- Invariant carried through phase two: the write log never repeats a
path, never names a pre-existing path, and everything logged (as well as
everything pre-existing) is registered in `existing`. -/
def WInv (existing0 : List String) (ws : WriteState) : Prop :=
  ws.writes.Nodup ∧ (∀ w ∈ ws.writes, w ∉ existing0) ∧
    (∀ e ∈ existing0, e ∈ ws.existing) ∧ (∀ w ∈ ws.writes, w ∈ ws.existing)

theorem writeOne_winv {existing0 : List String} {ws : WriteState}
    (h : WInv existing0 ws) (output_dir split class_name img : String) :
    WInv existing0 (writeOne output_dir split class_name ws img) := by
  obtain ⟨hnd, hnotpre, hpre, hreg⟩ := h
  have hfresh := copy_image_to_fresh ws.existing output_dir split class_name img
  refine ⟨?_, ?_, ?_, ?_⟩
  · show (ws.writes ++ [copy_image_to ws.existing output_dir split class_name img]).Nodup
    rw [List.nodup_append]
    refine ⟨hnd, List.nodup_singleton _, ?_⟩
    intro a ha hb
    rw [List.mem_singleton] at hb
    rw [hb] at ha
    exact hfresh (hreg _ ha)
  · intro w hw
    rcases List.mem_append.1 hw with hmem | hmem
    · exact hnotpre w hmem
    · rw [List.mem_singleton] at hmem
      rw [hmem]
      intro hcon
      exact hfresh (hpre _ hcon)
  · intro e he
    exact List.mem_cons_of_mem _ (hpre e he)
  · intro w hw
    rcases List.mem_append.1 hw with hmem | hmem
    · exact List.mem_cons_of_mem _ (hreg w hmem)
    · rw [List.mem_singleton] at hmem
      rw [hmem]
      exact List.mem_cons_self _ _

theorem foldl_writeOne_winv {existing0 : List String}
    (output_dir split class_name : String) :
    ∀ (imgs : List String) (ws : WriteState), WInv existing0 ws →
      WInv existing0 (imgs.foldl (writeOne output_dir split class_name) ws) := by
  intro imgs
  induction imgs with
  | nil => intro ws h; exact h
  | cons i is ih =>
    intro ws h
    exact ih _ (writeOne_winv h output_dir split class_name i)

theorem writeClassGroup_winv {existing0 : List String} (output_dir : String)
    (f : ℚ) {ws : WriteState} (h : WInv existing0 ws)
    (grp : String × List String) :
    WInv existing0 (writeClassGroup output_dir f ws grp) := by
  rw [writeClassGroup]
  apply foldl_writeOne_winv
  apply foldl_writeOne_winv
  exact h

theorem foldl_writeClassGroup_winv {existing0 : List String}
    (output_dir : String) (f : ℚ) :
    ∀ (groups : List (String × List String)) (ws : WriteState),
      WInv existing0 ws →
      WInv existing0 (groups.foldl (writeClassGroup output_dir f) ws) := by
  intro groups
  induction groups with
  | nil => intro ws h; exact h
  | cons g gs ih =>
    intro ws h
    exact ih _ (writeClassGroup_winv output_dir f h g)

theorem writeAll_winv (output_dir : String) (f : ℚ) (seed : Nat)
    (existing0 : List String) (groups : List (String × List String)) :
    WInv existing0 (writeAll output_dir f seed existing0 groups) := by
  rw [writeAll]
  apply foldl_writeClassGroup_winv
  exact ⟨List.nodup_nil, by simp, by simp, by simp⟩

theorem foldl_writeOne_total (output_dir split class_name : String) :
    ∀ (imgs : List String) (ws : WriteState),
      (imgs.foldl (writeOne output_dir split class_name) ws).total =
        ws.total + imgs.length := by
  intro imgs
  induction imgs with
  | nil => intro ws; simp
  | cons i is ih =>
    intro ws
    simp only [List.foldl_cons, List.length_cons]
    rw [ih]
    simp [writeOne]
    omega

theorem writeClassGroup_total (output_dir : String) (f : ℚ) (ws : WriteState)
    (grp : String × List String) :
    (writeClassGroup output_dir f ws grp).total = ws.total + grp.2.length := by
  rw [writeClassGroup]
  rw [foldl_writeOne_total, foldl_writeOne_total]
  have hlen : (splitForClass f ws.rng grp.2).1.2.length +
      (splitForClass f ws.rng grp.2).1.1.length = grp.2.length := by
    simp only [splitForClass]
    rw [List.length_drop, List.length_take, shuffleModel_length]
    omega
  dsimp only
  omega

theorem writeAll_total (output_dir : String) (f : ℚ) (seed : Nat)
    (existing0 : List String) (groups : List (String × List String)) :
    (writeAll output_dir f seed existing0 groups).total = groupsSize groups := by
  rw [writeAll]
  have key : ∀ (gs : List (String × List String)) (ws : WriteState),
      (gs.foldl (writeClassGroup output_dir f) ws).total =
        ws.total + groupsSize gs := by
    intro gs
    induction gs with
    | nil => intro ws; simp [groupsSize]
    | cons g rest ih =>
      intro ws
      simp only [List.foldl_cons]
      rw [ih, writeClassGroup_total]
      simp [groupsSize]
      omega
  rw [key]
  simp

theorem keepSample_multi (classMap : List (String × String)) (imagesDir : String)
    (entries : List (String × String)) (labelName chosen : String)
    (st : SelState) :
    (keepSample classMap imagesDir entries labelName chosen st).multi = st.multi := by
  rw [keepSample]
  cases find_image_for_label labelName imagesDir entries <;> rfl

theorem keepSample_skipped (classMap : List (String × String)) (imagesDir : String)
    (entries : List (String × String)) (labelName chosen : String)
    (st : SelState) :
    (keepSample classMap imagesDir entries labelName chosen st).skipped =
      st.skipped := by
  rw [keepSample]
  cases find_image_for_label labelName imagesDir entries <;> rfl

theorem keepSample_sum (classMap : List (String × String)) (imagesDir : String)
    (entries : List (String × String)) (labelName chosen : String)
    (st : SelState) :
    (keepSample classMap imagesDir entries labelName chosen st).samples.length +
      (keepSample classMap imagesDir entries labelName chosen st).missing =
      st.samples.length + st.missing + 1 := by
  rw [keepSample]
  cases find_image_for_label labelName imagesDir entries <;> simp <;> omega

theorem processOne_partition (classMap : List (String × String))
    (imagesDir : String) (entries : List (String × String))
    (st : SelState) (lf : LabelFile) :
    (processOne false classMap imagesDir entries st lf).samples.length +
      (processOne false classMap imagesDir entries st lf).skipped +
      (processOne false classMap imagesDir entries st lf).multi +
      (processOne false classMap imagesDir entries st lf).missing =
      st.samples.length + st.skipped + st.multi + st.missing + 1 := by
  rcases hp : parse_label_file lf.lines with _ | ⟨c0, rest⟩
  · rw [processOne_empty _ _ _ _ _ _ hp]
    dsimp only
    omega
  · rcases rest with _ | ⟨c1, rest2⟩
    · rw [processOne_single _ _ _ _ _ _ _ hp]
      have h1 := keepSample_sum classMap imagesDir entries lf.name c0 st
      have h2 := keepSample_skipped classMap imagesDir entries lf.name c0 st
      have h3 := keepSample_multi classMap imagesDir entries lf.name c0 st
      omega
    · rw [processOne_multi_noforce _ _ _ _ _ _ _ hp (by simp)]
      dsimp only
      omega

theorem processOne_multi_count (forceFirst : Bool)
    (classMap : List (String × String)) (imagesDir : String)
    (entries : List (String × String)) (st : SelState) (lf : LabelFile) :
    (processOne forceFirst classMap imagesDir entries st lf).multi =
      st.multi +
        (if 2 ≤ (parse_label_file lf.lines).length then 1 else 0) := by
  rcases hp : parse_label_file lf.lines with _ | ⟨c0, rest⟩
  · rw [processOne_empty _ _ _ _ _ _ hp]
    simp [hp]
  · rcases rest with _ | ⟨c1, rest2⟩
    · rw [processOne_single _ _ _ _ _ _ _ hp, keepSample_multi]
      simp [hp]
    · have hlen : 2 ≤ (parse_label_file lf.lines).length := by
        rw [hp]
        simp
      cases forceFirst with
      | false =>
        rw [processOne_multi_noforce _ _ _ _ _ _ _ hp (by simp)]
        simp [hlen]
      | true =>
        rw [processOne_multi_force _ _ _ _ _ _ _ hp (by simp), keepSample_multi]
        simp [hlen]

theorem selectPhase_partition (classMap : List (String × String))
    (imagesDir : String) (entries : List (String × String))
    (files : List LabelFile) :
    (selectPhase false classMap imagesDir entries files).samples.length +
      (selectPhase false classMap imagesDir entries files).skipped +
      (selectPhase false classMap imagesDir entries files).multi +
      (selectPhase false classMap imagesDir entries files).missing =
      files.length := by
  have key : ∀ (fs : List LabelFile) (st : SelState),
      (fs.foldl (processOne false classMap imagesDir entries) st).samples.length +
        (fs.foldl (processOne false classMap imagesDir entries) st).skipped +
        (fs.foldl (processOne false classMap imagesDir entries) st).multi +
        (fs.foldl (processOne false classMap imagesDir entries) st).missing =
        st.samples.length + st.skipped + st.multi + st.missing + fs.length := by
    intro fs
    induction fs with
    | nil => intro st; simp
    | cons f fs ih =>
      intro st
      simp only [List.foldl_cons, List.length_cons]
      rw [ih]
      have := processOne_partition classMap imagesDir entries st f
      omega
  rw [selectPhase, key]
  simp

theorem selectPhase_multi_count (forceFirst : Bool)
    (classMap : List (String × String)) (imagesDir : String)
    (entries : List (String × String)) (files : List LabelFile) :
    (selectPhase forceFirst classMap imagesDir entries files).multi =
      (files.filter
        (fun lf => decide (2 ≤ (parse_label_file lf.lines).length))).length := by
  have key : ∀ (fs : List LabelFile) (st : SelState),
      (fs.foldl (processOne forceFirst classMap imagesDir entries) st).multi =
        st.multi + (fs.filter
          (fun lf => decide (2 ≤ (parse_label_file lf.lines).length))).length := by
    intro fs
    induction fs with
    | nil => intro st; simp
    | cons f fs ih =>
      intro st
      simp only [List.foldl_cons]
      rw [ih, processOne_multi_count]
      by_cases h : 2 ≤ (parse_label_file f.lines).length
      · simp [List.filter_cons, h]
        omega
      · simp [List.filter_cons, h]
  rw [selectPhase, key]
  simp

/-- The classes file as the resolver sees it.  File reading and the two
parsers (`load_classes_from_txt`, `load_classes_from_yaml`) interact with
the filesystem and may raise exceptions, so their outcome is part of the
input state: `onDisk` models `os.path.isfile`; `txtParse` and `yamlParse`
are the parse outcomes of the respective parser on this file, with
`Except.error` standing for a raised exception. -/
structure ClassesFile where
  path : String
  onDisk : Bool
  txtParse : Except Unit (List (String × String))
  yamlParse : Except Unit (List (String × String))

/-- Model of `load_class_mapping` (lines 161-187): no path or a missing
file yields the empty mapping; a `.txt` path uses the line-per-name parser,
a `.yaml`/`.yml` path the structured parser (an empty parsed mapping also
falls back to empty); any parse exception and any other extension yield the
empty mapping.  Every failure only warns; the function always returns. -/
def load_class_mapping (classesPath : Option ClassesFile) :
    List (String × String) :=
  match classesPath with
  | none => []
  | some c =>
    if c.onDisk = false then []
    else
      let ext := lowerStr (splitext c.path).2
      if ext = ".txt" then
        match c.txtParse with
        | Except.ok m => m
        | Except.error _ => []
      else if ext = ".yaml" ∨ ext = ".yml" then
        match c.yamlParse with
        | Except.ok m => if m = [] then [] else m
        | Except.error _ => []
      else []

/-- Command-line arguments of the script (lines 275-285) that influence the
modelled behaviour. -/
structure Args where
  imagesDir : String
  outputDir : String
  valSplit : ℚ
  moveFiles : Bool
  forceFirst : Bool
  seed : Nat
  classes : Option ClassesFile

/-- The filesystem as enumerated by the run: the walk over the labels
directory, the walk over the images directory flattened to `(directory,
file name)` entries, and the paths already present under the output root. -/
structure FSState where
  labelWalk : List LabelFile
  imageEntries : List (String × String)
  outputExisting : List String

/-- Label files discovered by the scanner (lines 198-202): every walked
file whose lower-cased name ends in `.txt`. -/
def discoverLabels (walk : List LabelFile) : List LabelFile :=
  walk.filter (fun f => ['.', 't', 'x', 't'].isSuffixOf (lowerStr f.name).data)

/-- Everything the run produces that the claims talk about: the resolved
class mapping, the selection counters and samples, the reported multi-label
count (line 241 prints `multi if not args.force_first else 0`), the class
buckets, and the final writer state. -/
structure RunResult where
  classMap : List (String × String)
  sel : SelState
  reportedMulti : Nat
  groups : List (String × List String)
  writer : WriteState

/-- The whole run of `main` (lines 189-272) as a function of the arguments
and the enumerated filesystem. -/
def runModel (a : Args) (fs : FSState) : RunResult :=
  let classMap := load_class_mapping a.classes
  let files := discoverLabels fs.labelWalk
  let sel := selectPhase a.forceFirst classMap a.imagesDir fs.imageEntries files
  let groups := groupByClass sel.samples
  let writer := writeAll a.outputDir a.valSplit a.seed fs.outputExisting groups
  { classMap := classMap, sel := sel,
    reportedMulti := if a.forceFirst then 0 else sel.multi,
    groups := groups, writer := writer }

/-- The image locator with the probe order of the extension set made
explicit: `extOrder` is the iteration order in which the Python `for ext in
IMG_EXTS` loop visits the set (hash-randomized per process), so it is an
input of the run.  `find_image_for_label` is this function at the fixed
list order. -/
def findImageOrd (extOrder : List String) (labelName : String)
    (imagesDir : String) (entries : List (String × String)) : Option String :=
  let base := (splitext labelName).1
  match extOrder.find? (fun ext => decide ((imagesDir, base ++ ext) ∈ entries)) with
  | some ext => some (joinPath imagesDir (base ++ ext))
  | none =>
    match entries.find? (fun e => imgMatch base e.2) with
    | some e => some (joinPath e.1 e.2)
    | none => none

/-- `keepSample` with the extension probe order explicit. -/
def keepSampleOrd (extOrder : List String) (classMap : List (String × String))
    (imagesDir : String) (entries : List (String × String))
    (labelName : String) (chosen : String) (st : SelState) : SelState :=
  match findImageOrd extOrder labelName imagesDir entries with
  | none => { st with missing := st.missing + 1 }
  | some img =>
    let class_name := (lookupMap classMap chosen).getD chosen
    let class_name := replaceSpaces class_name
    { st with samples := st.samples ++ [(img, class_name)] }

/-- `processOne` with the extension probe order explicit. -/
def processOneOrd (extOrder : List String) (forceFirst : Bool)
    (classMap : List (String × String)) (imagesDir : String)
    (entries : List (String × String)) (st : SelState) (lf : LabelFile) :
    SelState :=
  match parse_label_file lf.lines with
  | [] => { st with skipped := st.skipped + 1 }
  | c0 :: rest =>
    if rest.length + 1 > 1 then
      let st1 := { st with multi := st.multi + 1 }
      if forceFirst then keepSampleOrd extOrder classMap imagesDir entries lf.name c0 st1
      else st1
    else keepSampleOrd extOrder classMap imagesDir entries lf.name c0 st

/-- `selectPhase` with the extension probe order explicit. -/
def selectPhaseOrd (extOrder : List String) (forceFirst : Bool)
    (classMap : List (String × String)) (imagesDir : String)
    (entries : List (String × String)) (files : List LabelFile) : SelState :=
  files.foldl (processOneOrd extOrder forceFirst classMap imagesDir entries)
    ⟨[], 0, 0, 0⟩

/-- The whole run with the extension-set iteration order as an explicit
input alongside the arguments and the enumerated filesystem.  `runModel` is
this function at the fixed list order. -/
def runModelOrd (extOrder : List String) (a : Args) (fs : FSState) :
    RunResult :=
  let classMap := load_class_mapping a.classes
  let files := discoverLabels fs.labelWalk
  let sel := selectPhaseOrd extOrder a.forceFirst classMap a.imagesDir
    fs.imageEntries files
  let groups := groupByClass sel.samples
  let writer := writeAll a.outputDir a.valSplit a.seed fs.outputExisting groups
  { classMap := classMap, sel := sel,
    reportedMulti := if a.forceFirst then 0 else sel.multi,
    groups := groups, writer := writer }

theorem findImageOrd_at_imgExts (labelName imagesDir : String)
    (entries : List (String × String)) :
    findImageOrd IMG_EXTS labelName imagesDir entries =
      find_image_for_label labelName imagesDir entries := rfl

theorem runModelOrd_at_imgExts (a : Args) (fs : FSState) :
    runModelOrd IMG_EXTS a fs = runModel a fs := rfl

/-- The first whitespace-delimited token of the first non-blank line of a
label file, as the specification words the force-first choice. -/
def firstIdOf (lines : List String) : String :=
  (labelIdsSpec lines).headD ""

/-- Resolution of an output class name as the specification words it: the
mapped name for the identifier, with every space replaced by an underscore,
or the stringified identifier itself when it is absent from the mapping. -/
def resolveClassNameSpec (m : List (String × String)) (ident : String) :
    String :=
  match lookupMap m ident with
  | some n => replaceSpaces n
  | none => ident

theorem parse_token_no_space (lines : List String) :
    ∀ t ∈ parse_label_file lines, replaceSpaces t = t := by
  intro t ht
  rw [parse_label_file_eq_spec] at ht
  rw [labelIdsSpec] at ht
  obtain ⟨line, hline, hsome⟩ := List.mem_filterMap.1 ht
  rcases hps : pySplit line with _ | ⟨t0, ts⟩
  · rw [hps] at hsome
    simp at hsome
  · rw [hps] at hsome
    simp only [List.head?_cons, Option.some.injEq] at hsome
    rw [← hsome]
    have ht0 : t0 ∈ pySplit line := by
      rw [hps]
      exact List.mem_cons_self _ _
    rw [pySplit] at ht0
    obtain ⟨p, hp, hmk⟩ := List.mem_map.1 ht0
    have hnows := tokensWs_no_ws line.data p hp
    rw [← hmk, replaceSpaces]
    show (⟨p.map (fun c => if c = ' ' then '_' else c)⟩ : String) = ⟨p⟩
    congr 1
    have : p.map (fun c => if c = ' ' then '_' else c) = p.map id := by
      apply List.map_congr_left
      intro c hc
      have := hnows c hc
      have hce : ¬ c = ' ' := by
        intro hcsp
        rw [hcsp] at this
        simp [Char.isWhitespace] at this
      simp [hce]
    rw [this, List.map_id]

/-- Claim C1: for a class bucket with `n` kept samples and validation
fraction `f` in the documented range, the validation set is exactly the
first `⌊n·f⌋` items of the shuffled bucket and the train set the remaining
`n − ⌊n·f⌋`; their concatenation is a permutation of the bucket, and every
sample occurrence lands in exactly one of the two sides. -/
theorem claim_C1 (f : ℚ) (g : Nat) (imgs : List String)
    (_hf0 : 0 ≤ f) (hf1 : f ≤ 1) :
    (splitForClass f g imgs).1.1 =
        (shuffleModel g imgs).1.take (valCount f imgs.length) ∧
    (splitForClass f g imgs).1.2 =
        (shuffleModel g imgs).1.drop (valCount f imgs.length) ∧
    (splitForClass f g imgs).1.1.length = (⌊(imgs.length : ℚ) * f⌋).toNat ∧
    (splitForClass f g imgs).1.2.length =
        imgs.length - (⌊(imgs.length : ℚ) * f⌋).toNat ∧
    ((splitForClass f g imgs).1.1 ++ (splitForClass f g imgs).1.2).Perm imgs ∧
    ∀ x, ((splitForClass f g imgs).1.1.count x +
        (splitForClass f g imgs).1.2.count x = imgs.count x) := by
  have hle : valCount f imgs.length ≤ (shuffleModel g imgs).1.length := by
    rw [shuffleModel_length]
    exact valCount_le hf1 imgs.length
  have hperm : ((splitForClass f g imgs).1.1 ++ (splitForClass f g imgs).1.2).Perm
      imgs := by
    show ((shuffleModel g imgs).1.take (valCount f imgs.length) ++
      (shuffleModel g imgs).1.drop (valCount f imgs.length)).Perm imgs
    rw [List.take_append_drop]
    exact shuffleModel_perm g imgs
  refine ⟨rfl, rfl, ?_, ?_, hperm, ?_⟩
  · show ((shuffleModel g imgs).1.take (valCount f imgs.length)).length = _
    rw [List.length_take]
    rw [valCount] at hle ⊢
    omega
  · show ((shuffleModel g imgs).1.drop (valCount f imgs.length)).length = _
    rw [List.length_drop, shuffleModel_length]
    rfl
  · intro x
    have h1 : ((splitForClass f g imgs).1.1 ++ (splitForClass f g imgs).1.2).count x =
        imgs.count x := hperm.count_eq x
    rw [List.count_append] at h1
    exact h1

theorem claim_C1_witness :
    (0 ≤ (1/2 : ℚ)) ∧ ((1/2 : ℚ) ≤ 1) ∧
    ((splitForClass (1/2) 7 ["a.jpg", "b.jpg", "c.jpg"]).1.1 =
        (shuffleModel 7 ["a.jpg", "b.jpg", "c.jpg"]).1.take
          (valCount (1/2) (["a.jpg", "b.jpg", "c.jpg"] : List String).length) ∧
      (splitForClass (1/2) 7 ["a.jpg", "b.jpg", "c.jpg"]).1.2 =
        (shuffleModel 7 ["a.jpg", "b.jpg", "c.jpg"]).1.drop
          (valCount (1/2) (["a.jpg", "b.jpg", "c.jpg"] : List String).length) ∧
      (splitForClass (1/2) 7 ["a.jpg", "b.jpg", "c.jpg"]).1.1.length =
        (⌊((["a.jpg", "b.jpg", "c.jpg"] : List String).length : ℚ) * (1/2)⌋).toNat ∧
      (splitForClass (1/2) 7 ["a.jpg", "b.jpg", "c.jpg"]).1.2.length =
        (["a.jpg", "b.jpg", "c.jpg"] : List String).length -
          (⌊((["a.jpg", "b.jpg", "c.jpg"] : List String).length : ℚ) * (1/2)⌋).toNat ∧
      ((splitForClass (1/2) 7 ["a.jpg", "b.jpg", "c.jpg"]).1.1 ++
        (splitForClass (1/2) 7 ["a.jpg", "b.jpg", "c.jpg"]).1.2).Perm
        ["a.jpg", "b.jpg", "c.jpg"] ∧
      ∀ x, ((splitForClass (1/2) 7 ["a.jpg", "b.jpg", "c.jpg"]).1.1.count x +
        (splitForClass (1/2) 7 ["a.jpg", "b.jpg", "c.jpg"]).1.2.count x =
        (["a.jpg", "b.jpg", "c.jpg"] : List String).count x)) :=
  ⟨by norm_num, by norm_num,
    claim_C1 (1/2) 7 ["a.jpg", "b.jpg", "c.jpg"] (by norm_num) (by norm_num)⟩

/-- Claim C5: the image locator returns `none` exactly when no file
anywhere under the images root matches the label's base name with an
accepted extension (case-insensitively), and any path it returns is such a
file.  The base-name hypothesis (it contains some non-dot character) holds
for every base name derived from a `.txt` label file. -/
theorem claim_C5 (labelName imagesDir : String)
    (entries : List (String × String))
    (hbase : ∃ c ∈ ((splitext labelName).1).data, c ≠ '.') :
    (find_image_for_label labelName imagesDir entries = none ↔
      ∀ e ∈ entries, imgMatch ((splitext labelName).1) e.2 = false) ∧
    ∀ p, find_image_for_label labelName imagesDir entries = some p →
      ∃ e ∈ entries, imgMatch ((splitext labelName).1) e.2 = true ∧
        p = joinPath e.1 e.2 := by
  exact ⟨find_image_eq_none_iff labelName imagesDir entries hbase,
    fun p hp => find_image_some_spec labelName imagesDir entries p hbase hp⟩

theorem claim_C5_witness :
    (∃ c ∈ ((splitext "a.txt").1).data, c ≠ '.') ∧
    ((find_image_for_label "a.txt" "imgs" [("imgs", "b.jpg")] = none ↔
      ∀ e ∈ [("imgs", "b.jpg")], imgMatch ((splitext "a.txt").1) e.2 = false) ∧
    ∀ p, find_image_for_label "a.txt" "imgs" [("imgs", "b.jpg")] = some p →
      ∃ e ∈ [("imgs", "b.jpg")], imgMatch ((splitext "a.txt").1) e.2 = true ∧
        p = joinPath e.1 e.2) :=
  ⟨by decide, claim_C5 "a.txt" "imgs" [("imgs", "b.jpg")] (by decide)⟩

/-- Counterexample to claim C2 as stated: a label file with two identifiers
processed with force-first enabled but no matching image anywhere produces
no sample at all (the record is discarded as missing-image), refuting the
unconditional "a sample is produced" for force-first mode. -/
theorem claim_C2_counterexample :
    2 ≤ (parse_label_file ["0 0.5 0.5 0.2 0.2", "1 0.3 0.3 0.1 0.1"]).length ∧
    (processOne true [] "images" [] ⟨[], 0, 0, 0⟩
      ⟨"labels", "a.txt", ["0 0.5 0.5 0.2 0.2", "1 0.3 0.3 0.1 0.1"]⟩).samples =
      [] := by
  constructor
  · decide
  · decide

/-- Claim C2 (amended): for a label file with two or more parsed
identifiers, no sample is produced when force-first is disabled; when
force-first is enabled and a matching image is found, exactly one sample is
produced, and its chosen class identifier is the first whitespace-delimited
token of the file's first non-blank line. -/
theorem claim_C2 (ff : Bool) (cm : List (String × String)) (idir : String)
    (entries : List (String × String)) (st : SelState) (lf : LabelFile)
    (h2 : 2 ≤ (parse_label_file lf.lines).length) :
    (ff = false → (processOne ff cm idir entries st lf).samples = st.samples) ∧
    (ff = true → ∀ img, find_image_for_label lf.name idir entries = some img →
      (processOne ff cm idir entries st lf).samples = st.samples ++
        [(img, replaceSpaces ((lookupMap cm (firstIdOf lf.lines)).getD
          (firstIdOf lf.lines)))]) := by
  rcases hp : parse_label_file lf.lines with _ | ⟨c0, rest⟩
  · rw [hp] at h2
    simp at h2
  · rcases rest with _ | ⟨c1, rest2⟩
    · rw [hp] at h2
      simp at h2
    · have hfirst : firstIdOf lf.lines = c0 := by
        rw [firstIdOf, ← parse_label_file_eq_spec, hp]
        rfl
      constructor
      · intro hff
        rw [hff]
        rw [processOne_multi_noforce cm idir entries st lf c0 (c1 :: rest2) hp
          (by simp)]
      · intro hff img himg
        rw [hff]
        rw [processOne_multi_force cm idir entries st lf c0 (c1 :: rest2) hp
          (by simp)]
        rw [keepSample_found cm idir entries lf.name c0 img _ himg, hfirst]

theorem claim_C2_witness :
    (2 ≤ (parse_label_file ["0 a b", "1 c d"]).length) ∧
    ((false = false →
      (processOne false [] "imgs" [("imgs", "x.jpg")] ⟨[], 0, 0, 0⟩
        ⟨"labels", "x.txt", ["0 a b", "1 c d"]⟩).samples = ([] : List (String × String))) ∧
    (false = true → ∀ img,
      find_image_for_label "x.txt" "imgs" [("imgs", "x.jpg")] = some img →
      (processOne false [] "imgs" [("imgs", "x.jpg")] ⟨[], 0, 0, 0⟩
        ⟨"labels", "x.txt", ["0 a b", "1 c d"]⟩).samples = [] ++
        [(img, replaceSpaces ((lookupMap [] (firstIdOf ["0 a b", "1 c d"])).getD
          (firstIdOf ["0 a b", "1 c d"])))])) :=
  ⟨by decide, claim_C2 false [] "imgs" [("imgs", "x.jpg")] ⟨[], 0, 0, 0⟩
    ⟨"labels", "x.txt", ["0 a b", "1 c d"]⟩ (by decide)⟩

/-- Claim C4: a kept record (single identifier, or any identifier list with
force-first enabled) with a found image emits exactly one sample whose
class name is the mapping's value for the chosen identifier with spaces
replaced by underscores, or the identifier itself when it is absent from
the mapping; this resolved name is the class directory component. -/
theorem claim_C4 (ff : Bool) (cm : List (String × String)) (idir : String)
    (entries : List (String × String)) (st : SelState) (lf : LabelFile)
    (c0 : String) (rest : List String)
    (hp : parse_label_file lf.lines = c0 :: rest)
    (hkeep : rest = [] ∨ ff = true) (img : String)
    (himg : find_image_for_label lf.name idir entries = some img) :
    (processOne ff cm idir entries st lf).samples =
      st.samples ++ [(img, resolveClassNameSpec cm c0)] := by
  have hname : replaceSpaces ((lookupMap cm c0).getD c0) =
      resolveClassNameSpec cm c0 := by
    rw [resolveClassNameSpec]
    rcases hl : lookupMap cm c0 with _ | n
    · simp only [Option.getD_none]
      exact parse_token_no_space lf.lines c0 (by rw [hp]; exact List.mem_cons_self _ _)
    · simp only [Option.getD_some]
  rcases hrest : rest with _ | ⟨c1, rest2⟩
  · rw [hrest] at hp
    rw [processOne_single ff cm idir entries st lf c0 hp]
    rw [keepSample_found cm idir entries lf.name c0 img _ himg, hname]
  · rcases hkeep with hnil | htrue
    · rw [hrest] at hnil
      simp at hnil
    · rw [hrest] at hp
      rw [htrue]
      rw [processOne_multi_force cm idir entries st lf c0 (c1 :: rest2) hp
        (by simp)]
      rw [keepSample_found cm idir entries lf.name c0 img _ himg, hname]

theorem claim_C4_witness :
    (parse_label_file ["2 0.1 0.2 0.3 0.4"] = ["2"]) ∧
    (([] : List String) = [] ∨ false = true) ∧
    (find_image_for_label "a.txt" "imgs" [("imgs", "a.jpg")] = some "imgs/a.jpg") ∧
    ((processOne false [("2", "bird")] "imgs" [("imgs", "a.jpg")] ⟨[], 0, 0, 0⟩
      ⟨"labels", "a.txt", ["2 0.1 0.2 0.3 0.4"]⟩).samples =
      [] ++ [("imgs/a.jpg", resolveClassNameSpec [("2", "bird")] "2")]) :=
  ⟨by decide, Or.inl rfl, by decide,
    claim_C4 false [("2", "bird")] "imgs" [("imgs", "a.jpg")] ⟨[], 0, 0, 0⟩
      ⟨"labels", "a.txt", ["2 0.1 0.2 0.3 0.4"]⟩ "2" [] (by decide) (Or.inl rfl)
      "imgs/a.jpg" (by decide)⟩

/-- Claim C3: no destination is ever overwritten within a run.  Every
single copy/move picks a destination absent from the paths existing at that
moment (natural name when free, else the first free `_1, _2, ...` suffixed
name), so over a whole run the write log never repeats a path and never
names a path that pre-existed under the output root; in particular two
sources with the same basename, class and split end up as two distinct
files. -/
theorem claim_C3 (output_dir : String) (f : ℚ) (seed : Nat)
    (existing0 : List String) (groups : List (String × List String)) :
    (∀ (existing : List String) (odir spl cname img : String),
      copy_image_to existing odir spl cname img ∉ existing) ∧
    (writeAll output_dir f seed existing0 groups).writes.Nodup ∧
    (∀ w ∈ (writeAll output_dir f seed existing0 groups).writes,
      w ∉ existing0) := by
  have hinv := writeAll_winv output_dir f seed existing0 groups
  exact ⟨fun existing odir spl cname img =>
    copy_image_to_fresh existing odir spl cname img, hinv.1, hinv.2.1⟩

theorem claim_C3_witness :
    (∀ (existing : List String) (odir spl cname img : String),
      copy_image_to existing odir spl cname img ∉ existing) ∧
    (writeAll "out" 0 42 ["out/train/cat/p.jpg"]
      [("cat", ["a/p.jpg", "b/p.jpg"])]).writes.Nodup ∧
    (∀ w ∈ (writeAll "out" 0 42 ["out/train/cat/p.jpg"]
      [("cat", ["a/p.jpg", "b/p.jpg"])]).writes,
      w ∉ ["out/train/cat/p.jpg"]) :=
  claim_C3 "out" 0 42 ["out/train/cat/p.jpg"] [("cat", ["a/p.jpg", "b/p.jpg"])]

/-- Concrete arguments used by the witness theorems below. -/
def argsNoForce : Args :=
  { imagesDir := "imgs", outputDir := "out", valSplit := 0,
    moveFiles := false, forceFirst := false, seed := 42, classes := none }

/-- Concrete filesystem state with one two-identifier label file. -/
def fsMulti : FSState :=
  { labelWalk := [⟨"labels", "a.txt", ["0 x", "1 y"]⟩],
    imageEntries := [], outputExisting := [] }

/-- Concrete filesystem state with one single-identifier label file. -/
def fsOne : FSState :=
  { labelWalk := [⟨"labels", "a.txt", ["0 x"]⟩],
    imageEntries := [], outputExisting := [] }

/-- Concrete classes file with an unsupported extension. -/
def classesJson : ClassesFile :=
  { path := "classes.json", onDisk := true,
    txtParse := Except.ok [], yamlParse := Except.ok [] }

/-- Concrete filesystem state in which the same base name is matched by two
candidate images of different extensions directly in the images root. -/
def fsTwoImgs : FSState :=
  { labelWalk := [⟨"labels", "a.txt", ["0 x"]⟩],
    imageEntries := [("imgs", "a.jpg"), ("imgs", "a.png")],
    outputExisting := [] }

/-- An alternative iteration order of the accepted-extension set, as a
hash-randomized Python process may produce. -/
def IMG_EXTS_ALT : List String :=
  [".png", ".jpg", ".jpeg", ".bmp", ".tif", ".tiff"]

/-- Claim C6: the reported multi-label count (line 241) equals, with
force-first disabled, the number of discovered label files with two or more
parsed identifiers — the counter is incremented before the image lookup, so
it is independent of whether an image was later found — and is 0 with
force-first enabled. -/
theorem claim_C6 (a : Args) (fs : FSState) :
    (a.forceFirst = false → (runModel a fs).reportedMulti =
      ((discoverLabels fs.labelWalk).filter
        (fun lf => decide (2 ≤ (parse_label_file lf.lines).length))).length) ∧
    (a.forceFirst = true → (runModel a fs).reportedMulti = 0) := by
  constructor
  · intro hff
    show (if a.forceFirst then 0 else
      (selectPhase a.forceFirst (load_class_mapping a.classes) a.imagesDir
        fs.imageEntries (discoverLabels fs.labelWalk)).multi) = _
    rw [hff, selectPhase_multi_count]
    simp
  · intro hff
    show (if a.forceFirst then 0 else _) = 0
    rw [hff]
    simp

theorem claim_C6_witness :
    (argsNoForce.forceFirst = false →
      (runModel argsNoForce fsMulti).reportedMulti =
      ((discoverLabels fsMulti.labelWalk).filter
        (fun lf => decide (2 ≤ (parse_label_file lf.lines).length))).length) ∧
    (argsNoForce.forceFirst = true →
      (runModel argsNoForce fsMulti).reportedMulti = 0) :=
  claim_C6 argsNoForce fsMulti

/-- Counterexample to claim C7 as stated: the run is not a function of the
arguments, the seed, and the filesystem enumeration order alone, because
the direct image-lookup pass iterates the extension set in Python set
iteration order, which is hash-randomized per process.  Concretely, with
`a.jpg` and `a.png` both directly in the images root, two runs with
identical arguments and identical filesystem enumeration whose processes
iterate the set in the two orders below (both orderings of the same set)
select different image files for the same label, so the runs differ — and
the copied files, hence the destination paths, differ with them. -/
theorem claim_C7_counterexample :
    IMG_EXTS_ALT.Perm IMG_EXTS ∧
    (runModelOrd IMG_EXTS_ALT argsNoForce fsTwoImgs).sel.samples ≠
      (runModelOrd IMG_EXTS argsNoForce fsTwoImgs).sel.samples ∧
    runModelOrd IMG_EXTS_ALT argsNoForce fsTwoImgs ≠
      runModelOrd IMG_EXTS argsNoForce fsTwoImgs := by
  refine ⟨by decide, by decide, ?_⟩
  intro h
  have hs := congrArg (fun r => r.sel.samples) h
  revert hs
  decide

/-- Claim C7 (amended): the run is a deterministic function of the
command-line arguments (seed included), the enumerated filesystem state,
and the iteration order of the accepted-extension set: two runs in which
all three coincide produce identical results — identical split assignments
and identical destination paths.  The model takes no other input: no
clock, no environment, no further randomness.  (At the fixed list order
this parameterised run coincides with `runModel`, see
`runModelOrd_at_imgExts`.) -/
theorem claim_C7 (o1 o2 : List String) (a1 a2 : Args) (fs1 fs2 : FSState)
    (ho : o1 = o2) (ha : a1 = a2) (hfs : fs1 = fs2) :
    runModelOrd o1 a1 fs1 = runModelOrd o2 a2 fs2 := by
  rw [ho, ha, hfs]

theorem claim_C7_witness :
    (IMG_EXTS = IMG_EXTS) ∧ (argsNoForce = argsNoForce) ∧
    (fsTwoImgs = fsTwoImgs) ∧
    runModelOrd IMG_EXTS argsNoForce fsTwoImgs =
      runModelOrd IMG_EXTS argsNoForce fsTwoImgs :=
  ⟨rfl, rfl, rfl,
    claim_C7 IMG_EXTS IMG_EXTS argsNoForce argsNoForce fsTwoImgs fsTwoImgs
      rfl rfl rfl⟩

/-- Claim C8: whenever the class-mapping file cannot be used — the path
names a file that does not exist, the extension is neither the
line-per-name nor a structured-mapping extension, or the matching parser
raises — the resolver returns the empty mapping and the run proceeds (the
resolver and the run are total functions); with the empty mapping every
identifier resolves to itself, i.e. stringified numeric identifiers are
used as class names. -/
theorem claim_C8 (c : ClassesFile) :
    (c.onDisk = false → load_class_mapping (some c) = []) ∧
    (lowerStr (splitext c.path).2 ∉ ([".txt", ".yaml", ".yml"] : List String) →
      load_class_mapping (some c) = []) ∧
    (lowerStr (splitext c.path).2 = ".txt" → c.txtParse = Except.error () →
      load_class_mapping (some c) = []) ∧
    ((lowerStr (splitext c.path).2 = ".yaml" ∨
        lowerStr (splitext c.path).2 = ".yml") →
      c.yamlParse = Except.error () → load_class_mapping (some c) = []) ∧
    (∀ ident : String, (lookupMap [] ident).getD ident = ident) := by
  refine ⟨?_, ?_, ?_, ?_, ?_⟩
  · intro h
    rw [load_class_mapping, h]
    simp
  · intro h
    rw [load_class_mapping]
    simp only [List.mem_cons, List.mem_singleton, not_or] at h
    obtain ⟨h1, h2, h3⟩ := h
    cases hdisk : c.onDisk
    · simp
    · simp [h1, h2, h3]
  · intro hext herr
    rw [load_class_mapping]
    cases hdisk : c.onDisk
    · simp
    · simp [hext, herr]
  · intro hext herr
    rw [load_class_mapping]
    cases hdisk : c.onDisk
    · simp
    · rcases hext with hya | hym
      · have : ¬ lowerStr (splitext c.path).2 = ".txt" := by
          rw [hya]
          decide
        simp [hya, this, herr]
      · have h1 : ¬ lowerStr (splitext c.path).2 = ".txt" := by
          rw [hym]
          decide
        have h2 : ¬ lowerStr (splitext c.path).2 = ".yaml" := by
          rw [hym]
          decide
        simp [hym, h1, h2, herr]
  · intro ident
    rfl

theorem claim_C8_witness :
    ((classesJson.onDisk = false → load_class_mapping (some classesJson) = []) ∧
    (lowerStr (splitext classesJson.path).2 ∉
        ([".txt", ".yaml", ".yml"] : List String) →
      load_class_mapping (some classesJson) = []) ∧
    (lowerStr (splitext classesJson.path).2 = ".txt" →
      classesJson.txtParse = Except.error () →
      load_class_mapping (some classesJson) = []) ∧
    ((lowerStr (splitext classesJson.path).2 = ".yaml" ∨
        lowerStr (splitext classesJson.path).2 = ".yml") →
      classesJson.yamlParse = Except.error () →
      load_class_mapping (some classesJson) = []) ∧
    (∀ ident : String, (lookupMap [] ident).getD ident = ident)) ∧
    load_class_mapping (some classesJson) = [] :=
  ⟨claim_C8 classesJson, (claim_C8 classesJson).2.1 (by decide)⟩

/-- Claim C9: the label parser returns the ordered list of first
whitespace-delimited tokens of the non-blank lines; a label file that
parses to the empty list is discarded with the empty-skip counter
incremented by exactly one, nothing else changed — and no image lookup is
performed: the outcome is the same for every possible images-directory
content, as the resulting state does not depend on `entries`. -/
theorem claim_C9 (lines : List String) (ff : Bool)
    (cm : List (String × String)) (idir : String)
    (entries : List (String × String)) (st : SelState) (lf : LabelFile) :
    parse_label_file lines = labelIdsSpec lines ∧
    (parse_label_file lf.lines = [] →
      processOne ff cm idir entries st lf =
        { st with skipped := st.skipped + 1 }) := by
  exact ⟨parse_label_file_eq_spec lines,
    fun h => processOne_empty ff cm idir entries st lf h⟩

theorem claim_C9_witness :
    (parse_label_file ["  1 2", "", "3 4"] = labelIdsSpec ["  1 2", "", "3 4"]) ∧
    (processOne false [] "imgs" [("imgs", "e.jpg")] ⟨[], 2, 3, 4⟩
      ⟨"labels", "e.txt", ["", "   "]⟩ =
      { samples := [], skipped := 2 + 1, multi := 3, missing := 4 }) :=
  ⟨(claim_C9 ["  1 2", "", "3 4"] false [] "imgs" [] ⟨[], 0, 0, 0⟩
      ⟨"labels", "e.txt", []⟩).1,
    (claim_C9 [] false [] "imgs" [("imgs", "e.jpg")] ⟨[], 2, 3, 4⟩
      ⟨"labels", "e.txt", ["", "   "]⟩).2 (by decide)⟩

/-- Claim C10: with force-first disabled each discovered label file lands
in exactly one of the four categories, so the number of discovered label
files equals kept + empty-skipped + multi-label + missing-image; and the
grand total of files copied or moved equals the number of kept samples. -/
theorem claim_C10 (a : Args) (fs : FSState) (hff : a.forceFirst = false) :
    (discoverLabels fs.labelWalk).length =
      (runModel a fs).sel.samples.length + (runModel a fs).sel.skipped +
      (runModel a fs).sel.multi + (runModel a fs).sel.missing ∧
    (runModel a fs).writer.total = (runModel a fs).sel.samples.length := by
  have hsel : (runModel a fs).sel =
      selectPhase a.forceFirst (load_class_mapping a.classes) a.imagesDir
        fs.imageEntries (discoverLabels fs.labelWalk) := rfl
  have hwriter : (runModel a fs).writer =
      writeAll a.outputDir a.valSplit a.seed fs.outputExisting
        (groupByClass (selectPhase a.forceFirst (load_class_mapping a.classes)
          a.imagesDir fs.imageEntries (discoverLabels fs.labelWalk)).samples) :=
    rfl
  constructor
  · rw [hsel, hff]
    exact (selectPhase_partition (load_class_mapping a.classes) a.imagesDir
      fs.imageEntries (discoverLabels fs.labelWalk)).symm
  · rw [hwriter, hsel, writeAll_total, groupByClass_size]

theorem claim_C10_witness :
    (argsNoForce.forceFirst = false) ∧
    ((discoverLabels fsOne.labelWalk).length =
      (runModel argsNoForce fsOne).sel.samples.length +
      (runModel argsNoForce fsOne).sel.skipped +
      (runModel argsNoForce fsOne).sel.multi +
      (runModel argsNoForce fsOne).sel.missing ∧
    (runModel argsNoForce fsOne).writer.total =
      (runModel argsNoForce fsOne).sel.samples.length) :=
  ⟨rfl, claim_C10 argsNoForce fsOne rfl⟩
